import Mathlib

/-!
Verification of the Focus Firewall YouTube content script
(relevance classification + rescanning engine) against its
natural-language specification.

The JavaScript source is shallowly embedded: strings are lists of
characters, DOM items are records of exactly the fields the script
reads and writes, and the asynchronous parts (debounce timer, message
handlers) are explicit state-passing functions.
-/

namespace FocusFirewall

/-- Strings are modelled as lists of characters (JS strings, restricted to
the ASCII behaviour the script relies on). -/
abbrev Str := List Char

/-- Model of `String.prototype.toLowerCase` on the ASCII range: maps
`A`-`Z` to `a`-`z` and leaves every other character unchanged. -/
def jsToLower (c : Char) : Char :=
  if 'A' ≤ c ∧ c ≤ 'Z' then Char.ofNat (c.toNat + 32) else c

/-- Model of the regex class `\s` (whitespace), ASCII part. -/
def jsIsWs (c : Char) : Bool :=
  c == ' ' || c == '\t' || c == '\n' || c == '\r' || c == '\x0b' || c == '\x0c'

/-- A character kept verbatim by the regex `[^a-z0-9\s]` replacement:
lowercase letter or digit. -/
def isLowerAlnum (c : Char) : Bool :=
  (decide ('a' ≤ c) && decide (c ≤ 'z')) || (decide ('0' ≤ c) && decide (c ≤ '9'))

/-- One character of `.replace(/[^a-z0-9\s]/g, ' ')`: characters outside
`[a-z0-9]` and whitespace become a space. -/
def scrubChar (c : Char) : Char :=
  if isLowerAlnum c || jsIsWs c then c else ' '

/-- The fixed stop-word list of the content script (source lines 86-94). -/
def STOP_WORDS : List Str :=
  (["the", "a", "an", "and", "or", "but", "in", "on", "at", "to", "for",
    "of", "with", "by", "from", "is", "it", "as", "be", "was", "are",
    "this", "that", "i", "my", "me", "we", "our", "you", "your", "am",
    "do", "does", "did", "will", "would", "could", "should", "can",
    "not", "no", "so", "if", "its", "than", "then", "just", "about",
    "into", "over", "after", "up", "down", "out", "off", "how", "what",
    "when", "where", "why", "which", "who", "all", "each", "some"]).map String.data

/-- `extractKeywords` (source lines 96-103): empty input returns `[]`;
otherwise lower-case, replace every character outside `[a-z0-9\s]` by a
space, split on whitespace, and keep tokens longer than 2 that are not
stop words.  `List.splitOnP` splits at every single whitespace character;
it differs from the JS `split(/\s+/)` only in extra empty tokens, all of
which the length filter removes. -/
def extractKeywords (text : Str) : List Str :=
  if text = [] then []
  else
    (((text.map jsToLower).map scrubChar).splitOnP jsIsWs).filter
      (fun w => decide (2 < w.length) && !(STOP_WORDS.contains w))

/-- Modelled from the spec's words (§4.1), for the refinement comparison
with `extractKeywords`: empty set on empty input, else lower-case, replace
every character outside `[a-z0-9]` and whitespace with a space, split on
whitespace runs (maximal, so no empty tokens), drop tokens of length ≤ 2
and stop-listed tokens. -/
def extractKeywordsSpec (text : Str) : List Str :=
  if text = [] then []
  else
    (((((text.map jsToLower).map scrubChar).splitOnP jsIsWs).filter
        (fun w => decide (w ≠ []))).filter
      (fun w => decide (2 < w.length) && !(STOP_WORDS.contains w)))

/-- Model of `haystack.includes(needle)`: contiguous substring test. -/
def jsIncludes (hay needle : Str) : Bool := decide (needle <:+: hay)

/-- `isRelevant` (source lines 107-117): reads the goal, derives the
keywords, and checks whether some keyword occurs in the lower-cased
title. -/
def isRelevant (currentGoal videoTitle : Str) : Bool :=
  if currentGoal = [] then true
  else if extractKeywords currentGoal = [] then true
  else (extractKeywords currentGoal).any
    (fun kw => jsIncludes (videoTitle.map jsToLower) kw)

/-- Spec-side notion used by §4.2: `kw` is a case-insensitive substring
of `t`. -/
def ciSubstring (kw t : Str) : Prop :=
  kw.map jsToLower <:+: t.map jsToLower

instance (kw t : Str) : Decidable (ciSubstring kw t) := by
  unfold ciSubstring; infer_instance

/-- Model of `String.prototype.trim` (ASCII whitespace). -/
def jsTrim (s : Str) : Str :=
  ((s.dropWhile jsIsWs).reverse.dropWhile jsIsWs).reverse

/-- One content item (a video element), holding exactly the parts of the
DOM state the script reads and writes:
`titleText` is the raw text found by the title-selector chain
(source lines 180-190; `none` means no title element was found),
`blurred` is membership of the `ff-yt-blurred` class,
`badges` is the number of `ff-yt-overlay` overlays attached inside the
element, `hasThumb` records whether `markIrrelevant`'s thumbnail query
(line 136) finds a container with a parent, and `posThumb` / `posSelf`
record the inline `position: relative` style on the thumbnail parent
resp. on the element itself. -/
structure Item where
  titleText : Option Str
  blurred : Bool
  badges : Nat
  hasThumb : Bool
  posThumb : Bool
  posSelf : Bool
  deriving DecidableEq

/-- `markIrrelevant` (source lines 121-144): no-op when the element is
already blurred; otherwise add the blur class, build one overlay badge
and attach it to the thumbnail parent (setting its inline
`position: relative`), falling back to the element itself. -/
def markIrrelevant (v : Item) : Item :=
  if v.blurred then v
  else if v.hasThumb then
    { v with blurred := true, posThumb := true, badges := v.badges + 1 }
  else
    { v with blurred := true, posSelf := true, badges := v.badges + 1 }

/-- `markRelevant` (source lines 146-158): remove the blur class and every
overlay inside the element (both attachment spots of `markIrrelevant` are
descendants of the element, so `querySelectorAll` removes them all).  The
inline `position: relative` styles are not touched. -/
def markRelevant (v : Item) : Item :=
  { v with blurred := false, badges := 0 }

/-- The per-item body of the `scanVideos` loop (source lines 178-198):
skip when no title element is found or the trimmed title text is empty,
otherwise classify with `isRelevant`. -/
def classifyItem (goal : Str) (video : Item) : Item :=
  match video.titleText with
  | none => video
  | some raw =>
      if jsTrim raw = [] then video
      else if isRelevant goal (jsTrim raw) then markRelevant video
      else markIrrelevant video

/-- `clearAllFilters` (source lines 202-206): `markRelevant` on every
element currently carrying the blur class; other items are untouched. -/
def clearAllFilters (page : List Item) : List Item :=
  page.map (fun v => if v.blurred then markRelevant v else v)

/-- `scanVideos` (source lines 170-199): full clear when disabled or the
goal string is empty, otherwise classify every enumerated item. -/
def scanVideos (goal : Str) (enabled : Bool) (page : List Item) : List Item :=
  if !enabled || decide (goal = []) then clearAllFilters page
  else page.map (classifyItem goal)

/-- A call to one of the two annotation operations. -/
inductive MarkOp
  | irrelevant
  | relevant
  deriving DecidableEq

def applyOp (v : Item) : MarkOp → Item
  | .irrelevant => markIrrelevant v
  | .relevant => markRelevant v

/-- Apply a sequence of annotation calls to an item. -/
def applyOps (v : Item) (ops : List MarkOp) : Item :=
  ops.foldl applyOp v

/-- The engine's mutable state (source lines 18-19). -/
structure EngState where
  currentGoal : Str
  isEnabled : Bool
  deriving DecidableEq

/-- The defaults in force before any message arrives. -/
def initState : EngState := { currentGoal := [], isEnabled := true }

/-- An incoming runtime message (source lines 239-252); the `goal` payload
field may be missing or null (`none`) in a malformed `GOAL_UPDATED`. -/
inductive Msg
  | goalUpdated (goal : Option Str)
  | toggleChanged (isEnabled : Bool)
  | other
  deriving DecidableEq

/-- The `onMessage` listener (source lines 239-252), returning the updated
engine state and page.  `message.goal || const-empty-string` is `Option.getD`
with the empty-string default. -/
def onMessage (m : Msg) (s : EngState) (page : List Item) : EngState × List Item :=
  match m with
  | .goalUpdated g =>
      ({ s with currentGoal := g.getD [] },
        scanVideos (g.getD []) s.isEnabled page)
  | .toggleChanged e =>
      if !e then ({ s with isEnabled := e }, clearAllFilters page)
      else ({ s with isEnabled := e },
        scanVideos s.currentGoal e page)
  | .other => (s, page)

/-- A `GET_STATE` response object; each field may be absent (`none`). -/
structure StateResponse where
  focusGoal : Option Str
  isEnabled : Option Bool
  deriving DecidableEq

/-- The `GET_STATE` init callback (source lines 255-262): bail out when
`chrome.runtime.lastError` is set or the response is falsy, otherwise seed
the state (`focusGoal || empty`, `isEnabled !== false`) and scan. -/
def onGetStateResponse (lastError : Bool) (response : Option StateResponse)
    (s : EngState) (page : List Item) : EngState × List Item :=
  if lastError then (s, page)
  else
    match response with
    | none => (s, page)
    | some r =>
        ({ currentGoal := r.focusGoal.getD [],
            isEnabled := !(r.isEnabled == some false) },
          scanVideos (r.focusGoal.getD []) (!(r.isEnabled == some false)) page)

/-- The debounce delay of `debouncedScan` (source line 212). -/
def DEBOUNCE_MS : Nat := 300

/-- Event-loop model of `debouncedScan` (source lines 210-213) driven by a
time-ordered list of trigger events.  The second argument is `scanTimer`:
the fire time of the pending `setTimeout`, if one is set.  At each trigger
event, a pending timer that was due at or before the event has already
fired (recorded in the output); any still-pending timer is cancelled
(`clearTimeout`) and a fresh one is set for the event time plus the delay.
After the last event the remaining pending timer fires.  The returned
list is the times at which `scanVideos` runs. -/
def runEvents (delay : Nat) : List Nat → Option Nat → List Nat
  | [], none => []
  | [], some f => [f]
  | t :: rest, none => runEvents delay rest (some (t + delay))
  | t :: rest, some f =>
      if f ≤ t then f :: runEvents delay rest (some (t + delay))
      else runEvents delay rest (some (t + delay))

/-- Scan times produced by a burst of trigger events, starting with no
pending timer. -/
def scanTimes (delay : Nat) (events : List Nat) : List Nat :=
  runEvents delay events none

/-- A marked item whose title can no longer be extracted (the title
element disappeared after the scan that marked it). -/
def markedNoTitleItem : Item :=
  { titleText := none, blurred := true, badges := 1,
    hasThumb := true, posThumb := true, posSelf := false }

/-- A never-marked item with a thumbnail container. -/
def cleanThumbItem : Item :=
  { titleText := some "Cute cat compilation".data, blurred := false, badges := 0,
    hasThumb := true, posThumb := false, posSelf := false }

theorem splitOnP_token_mem {p : Char → Bool} {l tok : Str} {c : Char}
    (htok : tok ∈ l.splitOnP p) (hc : c ∈ tok) : c ∈ l := by
  induction l generalizing tok with
  | nil =>
    rw [List.splitOnP_nil] at htok
    simp only [List.mem_singleton] at htok
    subst htok
    simp at hc
  | cons x xs ih =>
    rw [List.splitOnP_cons] at htok
    by_cases hpx : p x
    · rw [if_pos hpx] at htok
      rcases List.mem_cons.mp htok with h | h
      · subst h; simp at hc
      · exact List.mem_cons_of_mem _ (ih h hc)
    · rw [if_neg hpx] at htok
      obtain ⟨hd, tl, hsplit⟩ : ∃ hd tl, xs.splitOnP p = hd :: tl := by
        rcases hxs : xs.splitOnP p with _ | ⟨hd, tl⟩
        · exact absurd hxs (List.splitOnP_ne_nil _ _)
        · exact ⟨hd, tl, rfl⟩
      rw [hsplit, List.modifyHead_cons] at htok
      rcases List.mem_cons.mp htok with h | h
      · subst h
        rcases List.mem_cons.mp hc with h | h
        · subst h; exact List.mem_cons_self _ _
        · exact List.mem_cons_of_mem _ (ih (hsplit ▸ List.mem_cons_self hd tl) h)
      · exact List.mem_cons_of_mem _ (ih (hsplit ▸ List.mem_cons_of_mem hd h) hc)

theorem jsToLower_scrubChar (d : Char) : jsToLower (scrubChar d) = scrubChar d := by
  unfold scrubChar
  by_cases h : (isLowerAlnum d || jsIsWs d) = true
  · rw [if_pos h]
    unfold jsToLower
    rw [if_neg]
    rintro ⟨hA, hZ⟩
    rcases Bool.or_eq_true_iff.mp h with halnum | hws
    · rcases Bool.or_eq_true_iff.mp halnum with hl | hd9
      · have h1 : 'a' ≤ d := of_decide_eq_true (Bool.and_eq_true_iff.mp hl).1
        exact absurd (le_trans h1 hZ) (by decide)
      · have h1 : d ≤ '9' := of_decide_eq_true (Bool.and_eq_true_iff.mp hd9).2
        exact absurd (le_trans hA h1) (by decide)
    · simp only [jsIsWs, Bool.or_eq_true, beq_iff_eq] at hws
      rcases hws with ((((rfl | rfl) | rfl) | rfl) | rfl) | rfl <;>
        exact absurd hA (by decide)
  · rw [if_neg h]
    decide

theorem extractKeywords_token_lower {g kw : Str} (h : kw ∈ extractKeywords g) :
    kw.map jsToLower = kw := by
  unfold extractKeywords at h
  split at h
  · simp at h
  · have hmem := List.mem_of_mem_filter h
    have hall : ∀ c ∈ kw, jsToLower c = c := by
      intro c hc
      have hcl : c ∈ (g.map jsToLower).map scrubChar := splitOnP_token_mem hmem hc
      rw [List.map_map] at hcl
      obtain ⟨b, _, rfl⟩ := List.mem_map.mp hcl
      exact jsToLower_scrubChar _
    calc kw.map jsToLower = kw.map id := List.map_congr_left hall
      _ = kw := List.map_id kw

theorem clearAllFilters_all_unmarked (page : List Item) (v : Item)
    (hv : v ∈ clearAllFilters page) : v.blurred = false := by
  obtain ⟨w, _, rfl⟩ := List.mem_map.mp hv
  cases hb : w.blurred <;> simp [markRelevant, hb]

theorem applyOps_badge_invariant (ops : List MarkOp) (v : Item)
    (hv : (v.blurred = false → v.badges = 0) ∧ v.badges ≤ 1) :
    ((applyOps v ops).blurred = false → (applyOps v ops).badges = 0) ∧
      (applyOps v ops).badges ≤ 1 := by
  induction ops generalizing v with
  | nil => exact hv
  | cons op rest ih =>
    have hstep : ((applyOp v op).blurred = false → (applyOp v op).badges = 0) ∧
        (applyOp v op).badges ≤ 1 := by
      cases op with
      | irrelevant =>
        rw [applyOp]
        unfold markIrrelevant
        by_cases hb : v.blurred = true
        · rw [if_pos hb]; exact hv
        · have hbf : v.blurred = false := by revert hb; cases v.blurred <;> simp
          rw [if_neg hb]
          have h0 : v.badges = 0 := hv.1 hbf
          cases hth : v.hasThumb <;> simp [hth, h0]
      | relevant =>
        rw [applyOp]
        exact ⟨fun _ => rfl, by simp [markRelevant]⟩
    have := ih (applyOp v op) hstep
    simpa [applyOps, List.foldl_cons] using this

/-- C4: `extractKeywords` agrees pointwise with the specification pipeline
`extractKeywordsSpec` — the empty set on empty input, otherwise lower-case,
replace every character outside `[a-z0-9]` and whitespace with a space,
split on whitespace runs, and drop tokens of length at most 2 and tokens
on the stop-word list; being a Lean function, it is pure and
deterministic. -/
theorem extractKeywords_eq_spec (t : Str) :
    extractKeywords t = extractKeywordsSpec t := by
  unfold extractKeywords extractKeywordsSpec
  split
  · rfl
  · rw [List.filter_filter]
    refine List.filter_congr ?_
    intro w _
    cases w with
    | nil => simp
    | cons c cs => simp

/-- C2: whenever the goal's extracted keyword set is empty, `isRelevant`
classifies every title as relevant (fail-open: the absence of a usable
goal never hides content). -/
theorem isRelevant_true_of_empty_keywords (g t : Str)
    (h : extractKeywords g = []) : isRelevant g t = true := by
  unfold isRelevant
  by_cases hg : g = []
  · rw [if_pos hg]
  · rw [if_neg hg, if_pos h]

theorem isRelevant_true_of_empty_keywords_witness :
    extractKeywords "the".data = [] ∧
    isRelevant "the".data "Cute cat compilation".data = true :=
  ⟨by decide, isRelevant_true_of_empty_keywords _ _ (by decide)⟩

/-- C1: for every goal whose derived keyword set is non-empty and every
title, `isRelevant` returns true iff at least one keyword is a
case-insensitive substring of the title (substring containment, not
whole-word matching). -/
theorem isRelevant_iff_keyword_substring (g t : Str)
    (h : extractKeywords g ≠ []) :
    (isRelevant g t = true ↔ ∃ kw ∈ extractKeywords g, ciSubstring kw t) := by
  have hg : g ≠ [] := by rintro rfl; exact h rfl
  unfold isRelevant
  rw [if_neg hg, if_neg h, List.any_eq_true]
  constructor
  · rintro ⟨kw, hkw, hinc⟩
    refine ⟨kw, hkw, ?_⟩
    unfold ciSubstring
    rw [extractKeywords_token_lower hkw]
    exact of_decide_eq_true hinc
  · rintro ⟨kw, hkw, hci⟩
    refine ⟨kw, hkw, ?_⟩
    unfold ciSubstring at hci
    rw [extractKeywords_token_lower hkw] at hci
    exact decide_eq_true hci

theorem isRelevant_iff_keyword_substring_witness :
    extractKeywords "learn rust programming".data ≠ [] ∧
    (isRelevant "learn rust programming".data "Rust ownership explained".data = true ↔
      ∃ kw ∈ extractKeywords "learn rust programming".data,
        ciSubstring kw "Rust ownership explained".data) :=
  ⟨by decide, isRelevant_iff_keyword_substring _ _ (by decide)⟩

/-- C5: `markIrrelevant` and `markRelevant` are idempotent — a second
`markIrrelevant` in a row is a no-op (same visible state as one call:
de-emphasized with exactly one badge when starting from a clean item), a
second `markRelevant` is a no-op and leaves exactly zero badges — and
starting from a clean unmarked item, no sequence of calls ever leaves
more than one badge on the item. -/
theorem mark_ops_idempotent_single_badge (v : Item) (ops : List MarkOp)
    (t : Option Str) (ht : Bool) :
    markIrrelevant (markIrrelevant v) = markIrrelevant v ∧
    markRelevant (markRelevant v) = markRelevant v ∧
    (markRelevant (markRelevant v)).badges = 0 ∧
    (markIrrelevant (Item.mk t false 0 ht false false)).blurred = true ∧
    (markIrrelevant (Item.mk t false 0 ht false false)).badges = 1 ∧
    (applyOps (Item.mk t false 0 ht false false) ops).badges ≤ 1 := by
  refine ⟨?_, rfl, rfl, ?_, ?_, ?_⟩
  · by_cases hb : v.blurred = true
    · simp [markIrrelevant, hb]
    · have hbf : v.blurred = false := by revert hb; cases v.blurred <;> simp
      cases hth : v.hasThumb <;> simp [markIrrelevant, hbf, hth]
  · cases ht <;> simp [markIrrelevant]
  · cases ht <;> simp [markIrrelevant]
  · exact (applyOps_badge_invariant ops _ ⟨fun _ => rfl, by simp⟩).2

/-- C6 counterexample: on a clean item with a thumbnail container,
`markIrrelevant` followed by `markRelevant` does not restore the original
state — the inline `position: relative` style set by `markIrrelevant` on
the thumbnail parent is never removed. -/
theorem mark_round_trip_not_identity :
    markRelevant (markIrrelevant cleanThumbItem) ≠ cleanThumbItem := by decide

/-- C6 (amended): for every initially-unmarked item, `markIrrelevant`
followed by `markRelevant` restores the unmarked visible state — blur
class off, zero badges, title and structure untouched — except that the
inline `position: relative` style set by `markIrrelevant` (on the
thumbnail parent when one exists, otherwise on the item itself) remains
set. -/
theorem mark_round_trip_restores_except_position (v : Item)
    (hb : v.blurred = false) :
    (markRelevant (markIrrelevant v)).blurred = false ∧
    (markRelevant (markIrrelevant v)).badges = 0 ∧
    (markRelevant (markIrrelevant v)).titleText = v.titleText ∧
    (markRelevant (markIrrelevant v)).hasThumb = v.hasThumb ∧
    (markRelevant (markIrrelevant v)).posThumb = (v.posThumb || v.hasThumb) ∧
    (markRelevant (markIrrelevant v)).posSelf = (v.posSelf || !v.hasThumb) := by
  cases hth : v.hasThumb <;> simp [markIrrelevant, markRelevant, hb, hth]

theorem mark_round_trip_restores_except_position_witness :
    cleanThumbItem.blurred = false ∧
    ((markRelevant (markIrrelevant cleanThumbItem)).blurred = false ∧
      (markRelevant (markIrrelevant cleanThumbItem)).badges = 0 ∧
      (markRelevant (markIrrelevant cleanThumbItem)).titleText =
        cleanThumbItem.titleText ∧
      (markRelevant (markIrrelevant cleanThumbItem)).hasThumb =
        cleanThumbItem.hasThumb ∧
      (markRelevant (markIrrelevant cleanThumbItem)).posThumb =
        (cleanThumbItem.posThumb || cleanThumbItem.hasThumb) ∧
      (markRelevant (markIrrelevant cleanThumbItem)).posSelf =
        (cleanThumbItem.posSelf || !cleanThumbItem.hasThumb)) :=
  ⟨rfl, mark_round_trip_restores_except_position cleanThumbItem rfl⟩

/-- C3 counterexample: with the non-empty goal text `the` — whose derived
keyword set is empty — and the engine enabled, `scanVideos` does not take
the clear path: a marked item without an extractable title stays marked,
so the scan neither calls `markRelevant` on every annotated item nor
results in zero marked items. -/
theorem scan_empty_keywords_not_full_clear :
    extractKeywords "the".data = [] ∧
    (scanVideos "the".data true [markedNoTitleItem]).map Item.blurred = [true] :=
  ⟨by decide, by decide⟩

/-- C3 (amended): for every prior annotation state, calling the scan when
the engine is disabled or when the goal text is empty — rather than when
the goal's derived keyword set is empty — takes the clear path: it calls
`markRelevant` on exactly the currently-annotated items (resulting in
zero marked items) and classifies nothing else, performing no title
extraction or relevance checks on that path. -/
theorem scan_disabled_or_empty_goal_clears (g : Str) (e : Bool)
    (page : List Item) (v : Item) (h : e = false ∨ g = []) :
    scanVideos g e page = clearAllFilters page ∧
    (v ∈ scanVideos g e page → v.blurred = false) := by
  have hcl : scanVideos g e page = clearAllFilters page := by
    rcases h with rfl | rfl <;> simp [scanVideos]
  exact ⟨hcl, fun hv => clearAllFilters_all_unmarked page v (hcl ▸ hv)⟩

theorem scan_disabled_or_empty_goal_clears_witness :
    (false = false ∨ ("rust".data : Str) = []) ∧
    (scanVideos "rust".data false [markedNoTitleItem] =
        clearAllFilters [markedNoTitleItem] ∧
      (markRelevant markedNoTitleItem ∈
          scanVideos "rust".data false [markedNoTitleItem] →
        (markRelevant markedNoTitleItem).blurred = false)) :=
  ⟨Or.inl rfl, scan_disabled_or_empty_goal_clears _ _ _ _ (Or.inl rfl)⟩

/-- C7: during a scan with a non-empty goal and the engine enabled, every
enumerated item is processed by the per-item classification body; an item
whose title cannot be extracted — no title element found, or trimmed text
empty — is left in exactly the annotation state it already had, while
items with an extractable title are classified by `isRelevant`; no item
aborts the processing of the rest of the set. -/
theorem scan_skips_unextractable_items (g : Str) (page : List Item)
    (v : Item) (raw : Str) (hg : g ≠ []) :
    scanVideos g true page = page.map (classifyItem g) ∧
    (v.titleText = none → classifyItem g v = v) ∧
    (v.titleText = some raw → jsTrim raw = [] → classifyItem g v = v) ∧
    (v.titleText = some raw → jsTrim raw ≠ [] →
      classifyItem g v =
        if isRelevant g (jsTrim raw) then markRelevant v
        else markIrrelevant v) := by
  refine ⟨by simp [scanVideos, hg], fun hn => ?_, fun hs he => ?_, fun hs hne => ?_⟩
  · simp [classifyItem, hn]
  · simp [classifyItem, hs, he]
  · simp [classifyItem, hs, hne]

theorem scan_skips_unextractable_items_witness :
    ("rust".data : Str) ≠ [] ∧
    (scanVideos "rust".data true [markedNoTitleItem] =
        [markedNoTitleItem].map (classifyItem "rust".data) ∧
      (markedNoTitleItem.titleText = none →
        classifyItem "rust".data markedNoTitleItem = markedNoTitleItem) ∧
      (markedNoTitleItem.titleText = some [] → jsTrim [] = [] →
        classifyItem "rust".data markedNoTitleItem = markedNoTitleItem) ∧
      (markedNoTitleItem.titleText = some [] → jsTrim [] ≠ [] →
        classifyItem "rust".data markedNoTitleItem =
          if isRelevant "rust".data (jsTrim []) then markRelevant markedNoTitleItem
          else markIrrelevant markedNoTitleItem)) :=
  ⟨by decide, scan_skips_unextractable_items _ _ _ _ (by decide)⟩

theorem chain_le_getLastD {a : Nat} {l : List Nat}
    (h : List.Chain (· ≤ ·) a l) : a ≤ l.getLastD a := by
  induction l generalizing a with
  | nil => exact le_refl a
  | cons b bs ih =>
    rcases List.chain_cons.mp h with ⟨hab, hb⟩
    rw [List.getLastD_cons]
    exact le_trans hab (ih hb)

theorem runEvents_single_fire (d : Nat) (rest : List Nat) (t : Nat)
    (hchain : List.Chain (· ≤ ·) t rest)
    (hburst : rest.getLastD t < t + d) :
    runEvents d rest (some (t + d)) = [rest.getLastD t + d] := by
  induction rest generalizing t with
  | nil => rfl
  | cons u us ih =>
    rcases List.chain_cons.mp hchain with ⟨htu, hu⟩
    rw [List.getLastD_cons] at hburst ⊢
    have hlast : u ≤ us.getLastD u := chain_le_getLastD hu
    have hnot : ¬ t + d ≤ u := fun hle =>
      absurd (lt_of_le_of_lt (le_trans hle hlast) hburst) (lt_irrefl _)
    simp only [runEvents, if_neg hnot]
    exact ih u hu (lt_of_lt_of_le hburst (Nat.add_le_add_right htu d))

/-- C8: any burst of one or more trigger events, time-ordered and spanning
less than the 300 ms debounce window, produces exactly one scan, which
runs one debounce window after the last event of the burst — each new
event cancels and replaces the single pending timer instead of queueing
another scan. -/
theorem debounce_burst_single_scan (t : Nat) (rest : List Nat)
    (hchain : List.Chain (· ≤ ·) t rest)
    (hburst : rest.getLastD t < t + DEBOUNCE_MS) :
    scanTimes DEBOUNCE_MS (t :: rest) = [rest.getLastD t + DEBOUNCE_MS] := by
  have h := runEvents_single_fire DEBOUNCE_MS rest t hchain hburst
  simpa [scanTimes, runEvents] using h

theorem debounce_burst_single_scan_witness :
    List.Chain (· ≤ ·) 0 [100, 250] ∧
    ([100, 250].getLastD 0 < 0 + DEBOUNCE_MS) ∧
    scanTimes DEBOUNCE_MS [0, 100, 250] = [[100, 250].getLastD 0 + DEBOUNCE_MS] :=
  ⟨List.Chain.cons (by decide) (List.Chain.cons (by decide) List.Chain.nil),
    by decide,
    debounce_burst_single_scan 0 [100, 250]
      (List.Chain.cons (by decide) (List.Chain.cons (by decide) List.Chain.nil))
      (by decide)⟩

/-- C9: if the startup `GET_STATE` request errors (`lastError` set) or is
unanswered (falsy response), the callback returns without raising and
without retrying, the engine keeps the default state — empty goal,
enabled — and a later `GOAL_UPDATED` push notification still updates the
goal. -/
theorem getState_failure_keeps_defaults (lastError : Bool)
    (resp : Option StateResponse) (page : List Item) (g : Str)
    (h : lastError = true ∨ resp = none) :
    onGetStateResponse lastError resp initState page = (initState, page) ∧
    initState.currentGoal = [] ∧ initState.isEnabled = true ∧
    (onMessage (Msg.goalUpdated (some g)) initState page).1.currentGoal = g := by
  refine ⟨?_, rfl, rfl, by simp [onMessage]⟩
  rcases h with rfl | rfl
  · simp [onGetStateResponse]
  · cases lastError <;> simp [onGetStateResponse]

theorem getState_failure_keeps_defaults_witness :
    (true = true ∨ (none : Option StateResponse) = none) ∧
    (onGetStateResponse true none initState [] = (initState, []) ∧
      initState.currentGoal = [] ∧ initState.isEnabled = true ∧
      (onMessage (Msg.goalUpdated (some "rust".data)) initState []).1.currentGoal =
        "rust".data) :=
  ⟨Or.inl rfl, getState_failure_keeps_defaults _ _ _ _ (Or.inl rfl)⟩

/-- C10: a `GOAL_UPDATED` message whose goal payload is missing, null, or
the empty string sets the in-memory goal to the empty string and
immediately runs a scan, which takes the full-clear path and unmarks
every currently-annotated item; the malformed payload raises no error. -/
theorem goal_updated_empty_payload_clears (g : Option Str) (s : EngState)
    (page : List Item) (v : Item) (h : g = none ∨ g = some []) :
    (onMessage (Msg.goalUpdated g) s page).1 = { s with currentGoal := [] } ∧
    (onMessage (Msg.goalUpdated g) s page).2 = clearAllFilters page ∧
    (v ∈ (onMessage (Msg.goalUpdated g) s page).2 → v.blurred = false) := by
  have h2 : (onMessage (Msg.goalUpdated g) s page).2 = clearAllFilters page := by
    rcases h with rfl | rfl <;> simp [onMessage, scanVideos]
  refine ⟨?_, h2, fun hv => clearAllFilters_all_unmarked page v (h2 ▸ hv)⟩
  rcases h with rfl | rfl <;> simp [onMessage]

theorem goal_updated_empty_payload_clears_witness :
    ((none : Option Str) = none ∨ (none : Option Str) = some []) ∧
    ((onMessage (Msg.goalUpdated none) initState [markedNoTitleItem]).1 =
        { initState with currentGoal := [] } ∧
      (onMessage (Msg.goalUpdated none) initState [markedNoTitleItem]).2 =
        clearAllFilters [markedNoTitleItem] ∧
      (markRelevant markedNoTitleItem ∈
          (onMessage (Msg.goalUpdated none) initState [markedNoTitleItem]).2 →
        (markRelevant markedNoTitleItem).blurred = false)) :=
  ⟨Or.inl rfl, goal_updated_empty_payload_clears _ _ _ _ (Or.inl rfl)⟩

end FocusFirewall
